import Mathlib

/-
Verification of the Gravity Board Game engine of this repository.

The engine exists as two duplicated page-level implementations:
* the 3-row by 3-column, win-length-3 variant with the skill-parameterised
  opponent (source file part_009, component GravityTicTacToe), and
* the 6-row by 7-column, win-length-4 variant (source file part_008,
  component SimpleGravityTicTacToe).

The definitions below are direct translations of the source functions.
JavaScript null cells are modelled as none : Option Player; an out-of-bounds
array read (undefined in JavaScript) is modelled by cellAt returning none at
the outer Option layer, so that the JavaScript test cell === null (true only
for null, false for undefined) corresponds to cellAt b r c = some none.

A central point of the translation is the scheduling of the opponent move in
part_009.  makeMove (lines 148-188) commits the player's move and then runs
setTimeout with the callback referencing the identifiers makeAIMove and
getLowestEmptyCell of the render in which the click was handled.  Those
closures captured gameState before the player's move was committed.  Hence,
when the callback fires, makeAIMove reads
* the board after the player's move only through its explicit currentBoard
  argument (makeMove passes newBoard), while
* every call to getLowestEmptyCell, the gameStatus guard and gameState.moves
  inside makeAIMove read the stale, pre-move state.
The translation therefore passes the AI step two states: the stale state s0
captured by the closure and the committed state sc produced by the player's
move.  The functional setGameState updates of the callback apply to the
committed state, so the unnamed fields of the result come from sc.
-/

namespace GravityGame

/-- The two marks of the game, X for the human player and O for the AI
opponent, exactly as in the source type Player. -/
inductive Player where
  | X : Player
  | O : Player
deriving DecidableEq

/-- A board cell: none models the JavaScript null (empty cell). -/
abbrev Cell := Option Player

/-- A board is an array of row arrays, as in the source (board[row][col]). -/
abbrev Board := List (List Cell)

/-- The game status enumeration of the source
(playing, won, draw, waiting). -/
inductive GameStatus where
  | playing : GameStatus
  | won : GameStatus
  | draw : GameStatus
  | waiting : GameStatus
deriving DecidableEq

/-- The engine-relevant fields of the source GameState record of part_009.
Score and timing fields are caller policy and out of the engine's scope. -/
structure GameState where
  board : Board
  currentPlayer : Player
  gameStatus : GameStatus
  winner : Option Player
  winningLine : Option (List (Nat × Nat))
  moves : Nat
deriving DecidableEq

/-- Reading board[r][c]: the outer none models a JavaScript undefined read
(out of bounds), some none models a null (empty) cell. -/
def cellAt (b : Board) (r c : Nat) : Option Cell :=
  (b.get? r).bind fun row => row.get? c

/-- The JavaScript test board[r][c] === null: true exactly when the read is
in bounds and the cell is empty. -/
def isEmptyAt (b : Board) (r c : Nat) : Bool :=
  cellAt b r c == some none

/-- Writing board[r][c] = v on a fresh copy, as newBoard[row][col] = player
does in the source (List.set is the identity out of bounds; the source only
writes in bounds). -/
def setCell (b : Board) (r c : Nat) (v : Cell) : Board :=
  b.set r ((b.getD r []).set c v)

/-- Well-formedness of a 3 by 3 board: the shape every board of part_009
has by construction (Array(3).fill(null).map(() => Array(3).fill(null))). -/
def Wf (b : Board) : Prop :=
  b.length = 3 ∧ ∀ row ∈ b, row.length = 3

instance (b : Board) : Decidable (Wf b) := by
  unfold Wf; infer_instance

/-- The ternary currentPlayer === X ? O : X of the source. -/
def nextPlayer : Player → Player
  | Player.X => Player.O
  | Player.O => Player.X

/-- getLowestEmptyCell of part_009 (lines 139-146): scan rows 2, 1, 0 in
that order and return the first row whose cell in the column is null;
none models the -1 (column full) return. -/
def getLowestEmptyCell (b : Board) (col : Nat) : Option Nat :=
  [2, 1, 0].find? fun row => isEmptyAt b row col

/-- checkWin of part_009 (lines 274-298): with the mark at the given cell,
test the full row, the full column, and each of the two diagonals when the
cell lies on it, in that fixed order, returning the winning line found
first.  The JavaScript guard if (!player) return null covers both a null
cell and an undefined (out of bounds) read. -/
def checkWin (b : Board) (row col : Nat) : Option (List (Nat × Nat)) :=
  match cellAt b row col with
  | some (some player) =>
    if cellAt b row 0 = some (some player) ∧ cellAt b row 1 = some (some player) ∧
        cellAt b row 2 = some (some player) then
      some [(row, 0), (row, 1), (row, 2)]
    else if cellAt b 0 col = some (some player) ∧ cellAt b 1 col = some (some player) ∧
        cellAt b 2 col = some (some player) then
      some [(0, col), (1, col), (2, col)]
    else if row = col ∧ cellAt b 0 0 = some (some player) ∧ cellAt b 1 1 = some (some player) ∧
        cellAt b 2 2 = some (some player) then
      some [(0, 0), (1, 1), (2, 2)]
    else if row + col = 2 ∧ cellAt b 0 2 = some (some player) ∧ cellAt b 1 1 = some (some player) ∧
        cellAt b 2 0 = some (some player) then
      some [(0, 2), (1, 1), (2, 0)]
    else
      none
  | _ => none

/-- The two ways makeMove of part_009 rejects a move without touching the
state: the gameStatus guard of line 149 (gameAlreadyOver) and the row === -1
guard of line 152 (columnUnavailable).  The source has no separate check for
an out-of-range column index: such a column never yields an empty cell, so it
is rejected through the same columnUnavailable path as a full column. -/
inductive MoveError where
  | gameAlreadyOver : MoveError
  | columnUnavailable : MoveError
deriving DecidableEq

/-- makeMove of part_009 (lines 148-188), the applyMove operation of the
spec: reject if the game is not in progress or the column has no empty cell;
otherwise place the current player's mark at the lowest empty row, increment
moves, and either declare a win (checkWin anchored at the new cell), declare
a draw at nine moves, or hand the turn to the other player.  The error value
records which source guard rejected the call; both reject paths return
before any setGameState, leaving the session unchanged. -/
def makeMove (s : GameState) (col : Nat) : Except MoveError GameState :=
  if s.gameStatus ≠ GameStatus.playing then
    Except.error MoveError.gameAlreadyOver
  else
    match getLowestEmptyCell s.board col with
    | none => Except.error MoveError.columnUnavailable
    | some row =>
      let newBoard := setCell s.board row col (some s.currentPlayer)
      let newMoves := s.moves + 1
      match checkWin newBoard row col with
      | some line =>
        Except.ok { s with board := newBoard, moves := newMoves,
                           gameStatus := GameStatus.won,
                           winner := some s.currentPlayer,
                           winningLine := some line }
      | none =>
        if newMoves = 9 then
          Except.ok { s with board := newBoard, moves := newMoves,
                             gameStatus := GameStatus.draw,
                             winner := none, winningLine := none }
        else
          Except.ok { s with board := newBoard, moves := newMoves,
                             currentPlayer := nextPlayer s.currentPlayer }

/-- The session visible to the caller after a makeMove call: on a rejected
call the source returns before mutating, so the session keeps its value. -/
def runMove (s : GameState) (col : Nat) : GameState :=
  match makeMove s col with
  | Except.ok s2 => s2
  | Except.error _ => s

/-- The state produced by startGame of part_009: fresh 3 by 3 board, player
X to move, status playing, zero moves. -/
def startState : GameState :=
  { board := List.replicate 3 (List.replicate 3 (none : Cell)),
    currentPlayer := Player.X,
    gameStatus := GameStatus.playing,
    winner := none,
    winningLine := none,
    moves := 0 }

/-- The availableMoves loop of makeAIMove (part_009 lines 194-199): the
columns whose getLowestEmptyCell - computed on the stale board captured by
the closure - is not -1. -/
def availCols (stale : Board) : List Nat :=
  (List.range 3).filter fun col => (getLowestEmptyCell stale col).isSome

/-- One simulation step of the win loop of makeAIMove (lines 207-217): the
drop row comes from the stale board, the test board is a copy of the passed
current board with an O written at that row. -/
def simWinsO (stale cur : Board) (col : Nat) : Bool :=
  match getLowestEmptyCell stale col with
  | some row => (checkWin (setCell cur row col (some Player.O)) row col).isSome
  | none => false

/-- One simulation step of the block loop of makeAIMove (lines 220-232),
writing an X instead. -/
def simWinsX (stale cur : Board) (col : Nat) : Bool :=
  match getLowestEmptyCell stale col with
  | some row => (checkWin (setCell cur row col (some Player.X)) row col).isSome
  | none => false

/-- The column-selection logic of makeAIMove (part_009 lines 194-238), the
selectOpponentMove operation of the spec.  The two random draws of the
source are passed in: gate models Math.random() > settings.aiSkill and ridx
models Math.floor(Math.random() * availableMoves.length), so every skill
value and every random outcome is covered by quantifying over them.  Note
the three source quirks carried over faithfully: available columns and drop
rows come from the stale board; the block loop runs whenever bestMove still
equals availableMoves[0], even when the win loop chose that very column; and
the randomness overrides whatever the win and block loops chose. -/
def selectAIMove (stale cur : Board) (gate : Bool) (ridx : Nat) : Option Nat :=
  let av := availCols stale
  if av.isEmpty then none
  else
    let a0 := av.headD 0
    let b1 := match av.find? (simWinsO stale cur) with
      | some c => c
      | none => a0
    let b2 := if b1 = a0 then
        match av.find? (simWinsX stale cur) with
        | some c => c
        | none => b1
      else b1
    let b3 := if gate ∧ 1 < av.length then av.getD ridx 0 else b2
    some b3

/-- makeAIMove of part_009 (lines 190-272) as fired by the setTimeout of
makeMove: s0 is the stale state captured by the closure, sc the committed
state after the player's move (whose board is the currentBoard argument of
the source).  The guard, the drop row of the chosen column and the move
count all read the stale s0; the mark is written into a copy of sc.board;
the functional state updates apply to the committed sc. -/
def makeAIMove (s0 sc : GameState) (gate : Bool) (ridx : Nat) : GameState :=
  if s0.gameStatus ≠ GameStatus.playing then sc
  else
    match selectAIMove s0.board sc.board gate ridx with
    | none => sc
    | some bestMove =>
      match getLowestEmptyCell s0.board bestMove with
      | none => sc
      | some row =>
        let newBoard := setCell sc.board row bestMove (some Player.O)
        let newMoves := s0.moves + 2
        match checkWin newBoard row bestMove with
        | some line =>
          { sc with board := newBoard, moves := newMoves,
                    gameStatus := GameStatus.won,
                    winner := some Player.O,
                    winningLine := some line }
        | none =>
          if newMoves = 9 then
            { sc with board := newBoard, moves := newMoves,
                      gameStatus := GameStatus.draw,
                      winner := none, winningLine := none }
          else
            { sc with board := newBoard, moves := newMoves,
                      currentPlayer := Player.X }

/-- One full interaction turn as the source wires it: the player's makeMove,
followed - exactly when the move succeeded, the game is still in progress
and the turn passed to O - by the scheduled makeAIMove, which receives the
pre-move state through its captured closures.  The turn input carries the
chosen column and the two random draws of the AI. -/
def fullTurn (s : GameState) (i : Nat × Bool × Nat) : GameState :=
  match makeMove s i.1 with
  | Except.error _ => s
  | Except.ok s2 =>
    if s2.gameStatus = GameStatus.playing ∧ s2.currentPlayer = Player.O then
      makeAIMove s s2 i.2.1 i.2.2
    else s2

/-- A sequence of applyMove calls (rejected calls leave the session as it
was, as in the source). -/
def playMoves (s : GameState) (cols : List Nat) : GameState :=
  cols.foldl runMove s

/-- A sequence of full turns (player move plus scheduled AI response). -/
def playTurns (s : GameState) (ins : List (Nat × Bool × Nat)) : GameState :=
  ins.foldl fullTurn s

/-- The number of non-empty cells of a board. -/
def countMarks (b : Board) : Nat :=
  (b.map fun row => (row.filter fun cell => !(cell == (none : Cell))).length).sum

/-- The four axis directions of the win condition: along a row, along a
column, the down-right diagonal and the down-left diagonal.  A run of three
consecutive cells in the reverse of a direction occupies the same set of
cells, so these four cover every line of the claim. -/
inductive Dir where
  | h : Dir
  | v : Dir
  | d : Dir
  | a : Dir
deriving DecidableEq

/-- The three consecutive cells of a run starting at the given cell along a
direction (for the down-left diagonal the start is its top-right end, so all
coordinates stay in Nat). -/
def runCellsN (r0 c0 : Nat) : Dir → List (Nat × Nat)
  | Dir.h => [(r0, c0), (r0, c0 + 1), (r0, c0 + 2)]
  | Dir.v => [(r0, c0), (r0 + 1, c0), (r0 + 2, c0)]
  | Dir.d => [(r0, c0), (r0 + 1, c0 + 1), (r0 + 2, c0 + 2)]
  | Dir.a => [(r0, c0 + 2), (r0 + 1, c0 + 1), (r0 + 2, c0)]

/-- The given cells all lie on the 3 by 3 board and all hold the mark m. -/
def isRunOfB (b : Board) (cells : List (Nat × Nat)) (m : Player) : Bool :=
  cells.all fun p =>
    decide (p.1 < 3) && decide (p.2 < 3) && (cellAt b p.1 p.2 == some (some m))

/-- The eight maximal lines of the 3 by 3 board: the three rows, the three
columns and the two diagonals.  Each is a set of exactly three collinear,
contiguous cells along a row, a column or a diagonal direction. -/
def allLines : List (List (Nat × Nat)) :=
  [[(0, 0), (0, 1), (0, 2)],
   [(1, 0), (1, 1), (1, 2)],
   [(2, 0), (2, 1), (2, 2)],
   [(0, 0), (1, 0), (2, 0)],
   [(0, 1), (1, 1), (2, 1)],
   [(0, 2), (1, 2), (2, 2)],
   [(0, 0), (1, 1), (2, 2)],
   [(0, 2), (1, 1), (2, 0)]]

/-- The one-step gravity condition on a 3 by 3 board: an empty cell below
(larger row index) forces the cell directly above it to be empty too. -/
def gravityStepInv (b : Board) : Prop :=
  ∀ r < 2, ∀ c < 3, isEmptyAt b (r + 1) c = true → isEmptyAt b r c = true

instance (b : Board) : Decidable (gravityStepInv b) := by
  unfold gravityStepInv; infer_instance

end GravityGame

namespace Connect4

open GravityGame (Player Cell Board cellAt isEmptyAt)

/-- Well-formedness of a 6-row, 7-column board of part_008. -/
def Wf67 (b : Board) : Prop :=
  b.length = 6 ∧ ∀ row ∈ b, row.length = 7

instance (b : Board) : Decidable (Wf67 b) := by
  unfold Wf67; infer_instance

/-- checkDraw of part_008 (lines 506-508): the draw test inspects only the
top row, board[0].every(cell => cell !== null). -/
def checkDraw (b : Board) : Bool :=
  (b.getD 0 []).all fun cell => !(cell == (none : Cell))

/-- Modelled from the spec for the refinement comparison of the draw test:
the whole board is occupied, every cell of every row non-empty. -/
def fullBoardSpec (b : Board) : Bool :=
  (List.range 6).all fun r => (List.range 7).all fun c => !(isEmptyAt b r c)

/-- The one-step gravity condition on a 6 by 7 board, the invariant every
board reachable by legal gravity drops satisfies (findLowestEmptyRow of
part_008 lines 431-438 always fills the lowest empty cell of a column). -/
def gravityStepInv67 (b : Board) : Prop :=
  ∀ r < 5, ∀ c < 7, isEmptyAt b (r + 1) c = true → isEmptyAt b r c = true

instance (b : Board) : Decidable (gravityStepInv67 b) := by
  unfold gravityStepInv67; infer_instance

end Connect4

namespace GravityGame

/-- Unfolding of a board read into optional list indexing. -/
theorem cellAt_def (b : Board) (r c : Nat) :
    cellAt b r c = (b[r]?).bind fun row => row[c]? := by
  unfold cellAt
  simp only [List.get?_eq_getElem?]

/-- A successful board read implies both indices are in range of the 3 by 3
shape. -/
theorem cellAt_lt {b : Board} {r c : Nat} {x : Cell} (hw : Wf b)
    (h : cellAt b r c = some x) : r < 3 ∧ c < 3 := by
  rw [cellAt_def] at h
  cases hb : b[r]? with
  | none => rw [hb] at h; simp at h
  | some row =>
    rw [hb] at h
    simp only [Option.some_bind] at h
    rcases List.getElem?_eq_some_iff.mp hb with ⟨hr, hrow⟩
    have hmem : row ∈ b := hrow ▸ List.getElem_mem hr
    have hlen : row.length = 3 := hw.2 row hmem
    rcases List.getElem?_eq_some_iff.mp h with ⟨hc, _⟩
    constructor
    · rw [hw.1] at hr; exact hr
    · rw [hlen] at hc; exact hc


/-- Characterisation of a successful getLowestEmptyCell: the returned row is
empty and every row strictly below it in the column is not. -/
theorem glec_some {b : Board} {col r : Nat}
    (h : getLowestEmptyCell b col = some r) :
    isEmptyAt b r col = true ∧ r < 3 ∧
      ∀ r2, r < r2 → r2 < 3 → isEmptyAt b r2 col = false := by
  unfold getLowestEmptyCell at h
  cases h2 : isEmptyAt b 2 col <;> cases h1 : isEmptyAt b 1 col <;>
    cases h0 : isEmptyAt b 0 col <;>
      simp only [List.find?, h2, h1, h0, Option.some.injEq, reduceCtorEq] at h
  all_goals first
  | exact absurd h (by simp)
  | (subst h
     refine ⟨by assumption, by omega, ?_⟩
     intro r2 hlt hlt3
     interval_cases r2 <;> assumption)

/-- When getLowestEmptyCell reports a full column, no row of the column is
empty. -/
theorem glec_none {b : Board} {col : Nat}
    (h : getLowestEmptyCell b col = none) :
    ∀ r, r < 3 → isEmptyAt b r col = false := by
  unfold getLowestEmptyCell at h
  rw [List.find?_eq_none] at h
  intro r hr
  have hmem : r ∈ [2, 1, 0] := by interval_cases r <;> simp
  simpa using h r hmem

/-- Reading any out-of-range column of a well-formed board misses (the
JavaScript read is undefined, never null). -/
theorem isEmptyAt_oob_col {b : Board} {r c : Nat} (hw : Wf b) (hc : 3 ≤ c) :
    isEmptyAt b r c = false := by
  unfold isEmptyAt
  rw [cellAt_def]
  cases hb : b[r]? with
  | none => simp
  | some row =>
    rcases List.getElem?_eq_some_iff.mp hb with ⟨hr, hrow⟩
    have hmem : row ∈ b := hrow ▸ List.getElem_mem hr
    have hlen : row.length = 3 := hw.2 row hmem
    have : row[c]? = none := List.getElem?_eq_none (by omega)
    simp [this]

/-- An out-of-range column is treated by getLowestEmptyCell exactly like a
full column. -/
theorem glec_oob {b : Board} {c : Nat} (hw : Wf b) (hc : 3 ≤ c) :
    getLowestEmptyCell b c = none := by
  unfold getLowestEmptyCell
  rw [List.find?_eq_none]
  intro x _
  simp [isEmptyAt_oob_col hw hc]

/-- Writing a cell and reading it back, in bounds. -/
theorem cellAt_setCell_self {b : Board} {r c : Nat} (v : Cell)
    (hw : Wf b) (hr : r < 3) (hc : c < 3) :
    cellAt (setCell b r c v) r c = some v := by
  unfold setCell
  rw [cellAt_def]
  have hrlen : r < b.length := by rw [hw.1]; exact hr
  rw [List.getElem?_set_self (by simpa using hrlen)]
  simp only [Option.some_bind]
  have hrow : b[r]? = some b[r] := List.getElem?_eq_getElem hrlen
  have hmem : b[r] ∈ b := List.getElem_mem hrlen
  have hlen : (b.getD r []).length = 3 := by
    simp only [List.getD_eq_getElem?_getD, hrow, Option.getD_some]
    exact hw.2 _ hmem
  exact List.getElem?_set_self (by omega)

/-- Writing one cell leaves every other cell unchanged. -/
theorem cellAt_setCell_ne {b : Board} {r c r2 c2 : Nat} (v : Cell)
    (h : r ≠ r2 ∨ c ≠ c2) :
    cellAt (setCell b r c v) r2 c2 = cellAt b r2 c2 := by
  unfold setCell
  rw [cellAt_def, cellAt_def]
  rcases h with h | h
  · rw [List.getElem?_set_ne h]
  · cases hb : b[r2]? with
    | none =>
      rcases eq_or_ne r r2 with rfl | hne
      · rw [List.getElem?_set]
        simp only [if_pos rfl]
        have : ¬ r < b.length := by
          intro hlt
          rw [List.getElem?_eq_getElem hlt] at hb
          exact absurd hb (by simp)
        simp [this, hb]
      · rw [List.getElem?_set_ne hne, hb]
    | some row =>
      rcases eq_or_ne r r2 with rfl | hne
      · have hrlen : r < b.length := (List.getElem?_eq_some_iff.mp hb).1
        rw [List.getElem?_set_self (by simpa using hrlen)]
        simp only [Option.some_bind]
        have hgetD : b.getD r [] = row := by
          simp [List.getD_eq_getElem?_getD, hb]
        rw [hgetD, List.getElem?_set_ne h]
      · rw [List.getElem?_set_ne hne, hb]

/-- setCell preserves the 3 by 3 shape. -/
theorem Wf_setCell {b : Board} (r c : Nat) (v : Cell) (hw : Wf b) :
    Wf (setCell b r c v) := by
  unfold setCell
  rcases Nat.lt_or_ge r b.length with hr | hr
  · constructor
    · rw [List.length_set, hw.1]
    · intro row hmem
      rcases List.mem_or_eq_of_mem_set hmem with hmem2 | rfl
      · exact hw.2 row hmem2
      · rw [List.length_set]
        have hrow : b.getD r [] = b[r] := by
          simp [List.getD_eq_getElem?_getD, List.getElem?_eq_getElem hr]
        rw [hrow]
        exact hw.2 _ (List.getElem_mem hr)
  · rw [List.set_eq_of_length_le hr]
    exact hw


/-- Soundness of checkWin: a returned line is one of the eight maximal lines
of the board, it passes through the anchor cell, and all of its cells hold
the anchor cell's mark. -/
theorem checkWin_sound {b : Board} {r c : Nat} {L : List (Nat × Nat)}
    (hw : Wf b) (h : checkWin b r c = some L) :
    ∃ m, cellAt b r c = some (some m) ∧ L ∈ allLines ∧ (r, c) ∈ L ∧
      ∀ p ∈ L, cellAt b p.1 p.2 = some (some m) := by
  unfold checkWin at h
  cases hcell : cellAt b r c with
  | none => rw [hcell] at h; simp at h
  | some cell =>
    cases cell with
    | none => rw [hcell] at h; simp at h
    | some m =>
      rw [hcell] at h
      dsimp only at h
      have hlt := cellAt_lt hw hcell
      refine ⟨m, rfl, ?_⟩
      split_ifs at h with h1 h2 h3 h4
      · rcases h1 with ⟨ha, hb1, hc1⟩
        injection h with h; subst h
        refine ⟨?_, ?_, ?_⟩
        · have := hlt.1; interval_cases r <;> simp [allLines]
        · have := hlt.2; interval_cases c <;> simp
        · intro p hp
          simp only [List.mem_cons, List.not_mem_nil, or_false] at hp
          rcases hp with rfl | rfl | rfl
          · exact ha
          · exact hb1
          · exact hc1
      · rcases h2 with ⟨ha, hb1, hc1⟩
        injection h with h; subst h
        refine ⟨?_, ?_, ?_⟩
        · have := hlt.2; interval_cases c <;> simp [allLines]
        · have := hlt.1; interval_cases r <;> simp
        · intro p hp
          simp only [List.mem_cons, List.not_mem_nil, or_false] at hp
          rcases hp with rfl | rfl | rfl
          · exact ha
          · exact hb1
          · exact hc1
      · rcases h3 with ⟨hrc, ha, hb1, hc1⟩
        injection h with h; subst h
        subst hrc
        refine ⟨by simp [allLines], ?_, ?_⟩
        · have := hlt.1; interval_cases r <;> simp
        · intro p hp
          simp only [List.mem_cons, List.not_mem_nil, or_false] at hp
          rcases hp with rfl | rfl | rfl
          · exact ha
          · exact hb1
          · exact hc1
      · rcases h4 with ⟨hrc, ha, hb1, hc1⟩
        injection h with h; subst h
        refine ⟨by simp [allLines], ?_, ?_⟩
        · have h2 := hlt.1
          interval_cases r <;>
            (first
              | (have : c = 2 := by omega
                 subst this; simp)
              | (have : c = 1 := by omega
                 subst this; simp)
              | (have : c = 0 := by omega
                 subst this; simp))
        · intro p hp
          simp only [List.mem_cons, List.not_mem_nil, or_false] at hp
          rcases hp with rfl | rfl | rfl
          · exact ha
          · exact hb1
          · exact hc1


/-- If the anchor cell holds a mark and one of the four line conditions of
checkWin holds for that mark, checkWin reports a win. -/
theorem checkWin_isSome_of {b : Board} {r c : Nat} {m : Player}
    (hanchor : cellAt b r c = some (some m))
    (hcond :
      (cellAt b r 0 = some (some m) ∧ cellAt b r 1 = some (some m) ∧
        cellAt b r 2 = some (some m)) ∨
      (cellAt b 0 c = some (some m) ∧ cellAt b 1 c = some (some m) ∧
        cellAt b 2 c = some (some m)) ∨
      (r = c ∧ cellAt b 0 0 = some (some m) ∧ cellAt b 1 1 = some (some m) ∧
        cellAt b 2 2 = some (some m)) ∨
      (r + c = 2 ∧ cellAt b 0 2 = some (some m) ∧ cellAt b 1 1 = some (some m) ∧
        cellAt b 2 0 = some (some m))) :
    (checkWin b r c).isSome = true := by
  unfold checkWin
  rw [hanchor]
  dsimp only
  split_ifs with g1 g2 g3 g4 <;> first | rfl | tauto

/-- Completeness of checkWin: whenever a full run of three equal marks lies
on the board through the anchor cell, checkWin at the anchor reports a win
(some branch of the fixed check order fires). -/
theorem checkWin_complete {b : Board} {r0 c0 r c : Nat} {dd : Dir} {m : Player}
    (hrun : isRunOfB b (runCellsN r0 c0 dd) m = true)
    (hmem : (r, c) ∈ runCellsN r0 c0 dd) :
    (checkWin b r c).isSome = true := by
  have hfact : ∀ rr cc : Nat, (rr, cc) ∈ runCellsN r0 c0 dd →
      rr < 3 ∧ cc < 3 ∧ cellAt b rr cc = some (some m) := by
    intro rr cc hp
    have hx := List.all_eq_true.mp hrun (rr, cc) hp
    simp only [Bool.and_eq_true, decide_eq_true_eq, beq_iff_eq] at hx
    tauto
  cases dd with
  | h =>
    have e0 := (hfact r0 c0 (by simp [runCellsN])).2.2
    have e1 := (hfact r0 (c0 + 1) (by simp [runCellsN])).2.2
    have e2 := (hfact r0 (c0 + 2) (by simp [runCellsN])).2.2
    have hc0 : c0 = 0 := by
      have := (hfact r0 (c0 + 2) (by simp [runCellsN])).2.1
      omega
    subst hc0
    simp only [runCellsN, List.mem_cons, List.not_mem_nil, or_false,
      Prod.mk.injEq] at hmem
    rcases hmem with ⟨rfl, rfl⟩ | ⟨rfl, rfl⟩ | ⟨rfl, rfl⟩
    · exact checkWin_isSome_of e0 (Or.inl ⟨e0, e1, e2⟩)
    · exact checkWin_isSome_of e1 (Or.inl ⟨e0, e1, e2⟩)
    · exact checkWin_isSome_of e2 (Or.inl ⟨e0, e1, e2⟩)
  | v =>
    have e0 := (hfact r0 c0 (by simp [runCellsN])).2.2
    have e1 := (hfact (r0 + 1) c0 (by simp [runCellsN])).2.2
    have e2 := (hfact (r0 + 2) c0 (by simp [runCellsN])).2.2
    have hr0 : r0 = 0 := by
      have := (hfact (r0 + 2) c0 (by simp [runCellsN])).1
      omega
    subst hr0
    simp only [runCellsN, List.mem_cons, List.not_mem_nil, or_false,
      Prod.mk.injEq] at hmem
    rcases hmem with ⟨rfl, rfl⟩ | ⟨rfl, rfl⟩ | ⟨rfl, rfl⟩
    · exact checkWin_isSome_of e0 (Or.inr (Or.inl ⟨e0, e1, e2⟩))
    · exact checkWin_isSome_of e1 (Or.inr (Or.inl ⟨e0, e1, e2⟩))
    · exact checkWin_isSome_of e2 (Or.inr (Or.inl ⟨e0, e1, e2⟩))
  | d =>
    have e0 := (hfact r0 c0 (by simp [runCellsN])).2.2
    have e1 := (hfact (r0 + 1) (c0 + 1) (by simp [runCellsN])).2.2
    have e2 := (hfact (r0 + 2) (c0 + 2) (by simp [runCellsN])).2.2
    have hr0 : r0 = 0 := by
      have := (hfact (r0 + 2) (c0 + 2) (by simp [runCellsN])).1
      omega
    have hc0 : c0 = 0 := by
      have := (hfact (r0 + 2) (c0 + 2) (by simp [runCellsN])).2.1
      omega
    subst hr0; subst hc0
    simp only [runCellsN, List.mem_cons, List.not_mem_nil, or_false,
      Prod.mk.injEq] at hmem
    rcases hmem with ⟨rfl, rfl⟩ | ⟨rfl, rfl⟩ | ⟨rfl, rfl⟩
    · exact checkWin_isSome_of e0 (Or.inr (Or.inr (Or.inl ⟨rfl, e0, e1, e2⟩)))
    · exact checkWin_isSome_of e1 (Or.inr (Or.inr (Or.inl ⟨rfl, e0, e1, e2⟩)))
    · exact checkWin_isSome_of e2 (Or.inr (Or.inr (Or.inl ⟨rfl, e0, e1, e2⟩)))
  | a =>
    have e0 := (hfact r0 (c0 + 2) (by simp [runCellsN])).2.2
    have e1 := (hfact (r0 + 1) (c0 + 1) (by simp [runCellsN])).2.2
    have e2 := (hfact (r0 + 2) c0 (by simp [runCellsN])).2.2
    have hr0 : r0 = 0 := by
      have := (hfact (r0 + 2) c0 (by simp [runCellsN])).1
      omega
    have hc0 : c0 = 0 := by
      have := (hfact r0 (c0 + 2) (by simp [runCellsN])).2.1
      omega
    subst hr0; subst hc0
    simp only [runCellsN, List.mem_cons, List.not_mem_nil, or_false,
      Prod.mk.injEq] at hmem
    rcases hmem with ⟨rfl, rfl⟩ | ⟨rfl, rfl⟩ | ⟨rfl, rfl⟩
    · exact checkWin_isSome_of e0 (Or.inr (Or.inr (Or.inr ⟨by norm_num, e0, e1, e2⟩)))
    · exact checkWin_isSome_of e1 (Or.inr (Or.inr (Or.inr ⟨by norm_num, e0, e1, e2⟩)))
    · exact checkWin_isSome_of e2 (Or.inr (Or.inr (Or.inr ⟨by norm_num, e0, e1, e2⟩)))


/-- Structural description of a successful makeMove: the guard passed, the
mark went to the row getLowestEmptyCell chose, moves grew by one, and the
remaining fields follow exactly one of the three outcome branches (win,
draw at nine moves, or continue with the turn flipped). -/
theorem makeMove_ok_cases {s : GameState} {col : Nat} {s2 : GameState}
    (h : makeMove s col = Except.ok s2) :
    s.gameStatus = GameStatus.playing ∧
    ∃ row, getLowestEmptyCell s.board col = some row ∧
      s2.board = setCell s.board row col (some s.currentPlayer) ∧
      s2.moves = s.moves + 1 ∧
      ((∃ line,
          checkWin (setCell s.board row col (some s.currentPlayer)) row col = some line ∧
          s2.gameStatus = GameStatus.won ∧ s2.winner = some s.currentPlayer ∧
          s2.winningLine = some line ∧ s2.currentPlayer = s.currentPlayer) ∨
       (checkWin (setCell s.board row col (some s.currentPlayer)) row col = none ∧
          s.moves + 1 = 9 ∧ s2.gameStatus = GameStatus.draw ∧ s2.winner = none ∧
          s2.winningLine = none ∧ s2.currentPlayer = s.currentPlayer) ∨
       (checkWin (setCell s.board row col (some s.currentPlayer)) row col = none ∧
          s.moves + 1 ≠ 9 ∧ s2.gameStatus = GameStatus.playing ∧
          s2.currentPlayer = nextPlayer s.currentPlayer ∧
          s2.winner = s.winner ∧ s2.winningLine = s.winningLine)) := by
  unfold makeMove at h
  by_cases hst : s.gameStatus = GameStatus.playing
  case neg =>
    rw [if_pos hst] at h
    exact absurd h (by simp)
  case pos =>
    rw [if_neg (by simp [hst])] at h
    refine ⟨hst, ?_⟩
    cases hg : getLowestEmptyCell s.board col with
    | none => rw [hg] at h; exact absurd h (by simp)
    | some row =>
      rw [hg] at h
      dsimp only at h
      refine ⟨row, rfl, ?_⟩
      cases hcw : checkWin (setCell s.board row col (some s.currentPlayer)) row col with
      | some line =>
        rw [hcw] at h
        have h2 := h
        injection h2 with h2
        subst h2
        exact ⟨rfl, rfl, Or.inl ⟨line, rfl, rfl, rfl, rfl, rfl⟩⟩
      | none =>
        rw [hcw] at h
        by_cases h9 : s.moves + 1 = 9
        · rw [if_pos h9] at h
          injection h with h2
          subst h2
          exact ⟨rfl, rfl, Or.inr (Or.inl ⟨rfl, h9, rfl, rfl, rfl, rfl⟩)⟩
        · rw [if_neg h9] at h
          injection h with h2
          subst h2
          exact ⟨rfl, rfl, Or.inr (Or.inr ⟨rfl, h9, hst, rfl, rfl, rfl⟩)⟩

/-- A rejected makeMove is reported through one of the two error values. -/
theorem makeMove_error_cases {s : GameState} {col : Nat} {e : MoveError}
    (h : makeMove s col = Except.error e) :
    (s.gameStatus ≠ GameStatus.playing ∧ e = MoveError.gameAlreadyOver) ∨
    (s.gameStatus = GameStatus.playing ∧ getLowestEmptyCell s.board col = none ∧
      e = MoveError.columnUnavailable) := by
  unfold makeMove at h
  by_cases hst : s.gameStatus = GameStatus.playing
  case neg =>
    rw [if_pos hst] at h
    injection h with h2
    exact Or.inl ⟨hst, h2.symm⟩
  case pos =>
    rw [if_neg (by simp [hst])] at h
    cases hg : getLowestEmptyCell s.board col with
    | none =>
      rw [hg] at h
      injection h with h2
      exact Or.inr ⟨hst, rfl, h2.symm⟩
    | some row =>
      rw [hg] at h
      dsimp only at h
      cases hcw : checkWin (setCell s.board row col (some s.currentPlayer)) row col with
      | some line => rw [hcw] at h; exact absurd h (by simp)
      | none =>
        rw [hcw] at h
        by_cases h9 : s.moves + 1 = 9
        · rw [if_pos h9] at h; exact absurd h (by simp)
        · rw [if_neg h9] at h; exact absurd h (by simp)


/-- Dropping a mark at the row getLowestEmptyCell chose preserves the
one-step gravity condition. -/
theorem gravity_preserved {b : Board} {col row : Nat} {v : Player}
    (hw : Wf b) (hg : gravityStepInv b)
    (hrow : getLowestEmptyCell b col = some row) :
    gravityStepInv (setCell b row col (some v)) := by
  obtain ⟨hemp, hrlt, hbelow⟩ := glec_some hrow
  have hcol : row < 3 ∧ col < 3 := by
    apply cellAt_lt hw
    have := hemp
    unfold isEmptyAt at this
    exact eq_of_beq this
  intro r hr c hc hnew
  have hne1 : row ≠ r + 1 ∨ col ≠ c := by
    by_contra hcon
    push_neg at hcon
    obtain ⟨h1, h2⟩ := hcon
    have hself : cellAt (setCell b row col (some v)) (r + 1) c = some (some v) := by
      rw [← h1, ← h2]
      exact cellAt_setCell_self _ hw hcol.1 hcol.2
    unfold isEmptyAt at hnew
    rw [hself] at hnew
    exact absurd hnew (by simp)
  have hold : isEmptyAt b (r + 1) c = true := by
    unfold isEmptyAt at hnew ⊢
    rw [cellAt_setCell_ne _ hne1] at hnew
    exact hnew
  by_cases hrc : row = r ∧ col = c
  · obtain ⟨rfl, rfl⟩ := hrc
    have := hbelow (row + 1) (by omega) (by omega)
    rw [hold] at this
    exact absurd this (by simp)
  · have hne2 : row ≠ r ∨ col ≠ c := by tauto
    unfold isEmptyAt
    rw [cellAt_setCell_ne _ hne2]
    exact hg r hr c hc hold

/-- On a board satisfying the one-step gravity condition, no empty cell sits
below a non-empty cell of the same column. -/
theorem gravity_no_empty_below {b : Board} (hg : gravityStepInv b) :
    ∀ r c r2 : Nat, r < 3 → c < 3 → isEmptyAt b r c = false →
      r < r2 → r2 < 3 → isEmptyAt b r2 c = false := by
  intro r c r2 hr hc hful hlt hr2
  by_contra hx
  have hx2 : isEmptyAt b r2 c = true := by
    revert hx
    cases isEmptyAt b r2 c <;> simp
  interval_cases r2
  · omega
  · have h0 : isEmptyAt b 0 c = true := hg 0 (by omega) c hc hx2
    have hz : r = 0 := by omega
    subst hz
    exact absurd h0 (by simp [hful])
  · have h1 : isEmptyAt b 1 c = true := hg 1 (by omega) c hc hx2
    have h0 : isEmptyAt b 0 c = true := hg 0 (by omega) c hc h1
    interval_cases r
    · exact absurd h0 (by simp [hful])
    · exact absurd h1 (by simp [hful])

/-- One applyMove call, successful or not, keeps the board well formed and
gravity sound. -/
theorem runMove_good (s : GameState) (col : Nat)
    (hw : Wf s.board) (hg : gravityStepInv s.board) :
    Wf (runMove s col).board ∧ gravityStepInv (runMove s col).board := by
  unfold runMove
  cases hm : makeMove s col with
  | error e => exact ⟨hw, hg⟩
  | ok s2 =>
    obtain ⟨hst, row, hrow, hboard, hrest⟩ := makeMove_ok_cases hm
    rw [hboard]
    exact ⟨Wf_setCell _ _ _ hw, gravity_preserved hw hg hrow⟩

/-- Any sequence of applyMove calls keeps the board well formed and gravity
sound. -/
theorem playMoves_good (cols : List Nat) (s : GameState)
    (hw : Wf s.board) (hg : gravityStepInv s.board) :
    Wf (playMoves s cols).board ∧ gravityStepInv (playMoves s cols).board := by
  induction cols generalizing s with
  | nil => exact ⟨hw, hg⟩
  | cons c0 rest ih =>
    simp only [playMoves, List.foldl]
    have h := runMove_good s c0 hw hg
    exact ih (runMove s c0) h.1 h.2

/-- A mid-game session in which X has stacked two marks in column 1 and can
win by dropping a third. -/
def sVert : GameState :=
  { board := [[none, none, none],
              [some Player.O, some Player.X, none],
              [some Player.O, some Player.X, none]],
    currentPlayer := Player.X,
    gameStatus := GameStatus.playing,
    winner := none,
    winningLine := none,
    moves := 4 }

/-- A session whose column 0 is completely full while the game is still in
progress. -/
def sFullCol : GameState :=
  { board := [[some Player.X, none, none],
              [some Player.O, none, none],
              [some Player.X, none, none]],
    currentPlayer := Player.O,
    gameStatus := GameStatus.playing,
    winner := none,
    winningLine := none,
    moves := 3 }

/-- A finished session: X has just completed column 1 and the status is the
terminal won state. -/
def sTerm : GameState :=
  { board := [[none, some Player.X, none],
              [some Player.O, some Player.X, none],
              [some Player.O, some Player.X, none]],
    currentPlayer := Player.X,
    gameStatus := GameStatus.won,
    winner := some Player.X,
    winningLine := some [(0, 1), (1, 1), (2, 1)],
    moves := 5 }


/-- C3 (amended): every rejected applyMove leaves the session entirely
unchanged; a session that is not in progress is rejected with the
game-already-over error (in particular every Won or Draw session); a column
with no empty cell - a full column, and likewise every out-of-range column
index, for which the source has no separate check - is rejected with the
single column-unavailable error. -/
theorem C3_reject_unchanged (s : GameState) (col : Nat) :
    (s.gameStatus ≠ GameStatus.playing →
      makeMove s col = Except.error MoveError.gameAlreadyOver ∧ runMove s col = s) ∧
    (s.gameStatus = GameStatus.playing → getLowestEmptyCell s.board col = none →
      makeMove s col = Except.error MoveError.columnUnavailable ∧ runMove s col = s) ∧
    (Wf s.board → 3 ≤ col → getLowestEmptyCell s.board col = none) := by
  refine ⟨?_, ?_, ?_⟩
  · intro hst
    have hm : makeMove s col = Except.error MoveError.gameAlreadyOver := by
      unfold makeMove
      rw [if_pos hst]
    refine ⟨hm, ?_⟩
    unfold runMove
    rw [hm]
  · intro hst hg
    have hm : makeMove s col = Except.error MoveError.columnUnavailable := by
      unfold makeMove
      rw [if_neg (by simp [hst]), hg]
    refine ⟨hm, ?_⟩
    unfold runMove
    rw [hm]
  · intro hw hcol
    exact glec_oob hw hcol

/-- C3 counterexample to the claim as stated: an out-of-range column (index
5) and a full column (index 0) are rejected with one and the same error
value - the code has no distinct invalid-column error - though the session
is indeed left unchanged in both cases. -/
theorem C3_counterexample :
    makeMove sFullCol 5 = Except.error MoveError.columnUnavailable ∧
    makeMove sFullCol 0 = Except.error MoveError.columnUnavailable ∧
    MoveError.columnUnavailable ≠ MoveError.gameAlreadyOver ∧
    runMove sFullCol 5 = sFullCol ∧ runMove sFullCol 0 = sFullCol := by
  refine ⟨rfl, rfl, by decide, rfl, rfl⟩

/-- C3 witness: the amended statement applied to the concrete terminal
session, to the concrete full column and to the concrete out-of-range
column. -/
theorem C3_reject_unchanged_witness :
    (makeMove sTerm 0 = Except.error MoveError.gameAlreadyOver ∧
      runMove sTerm 0 = sTerm) ∧
    (makeMove sFullCol 0 = Except.error MoveError.columnUnavailable ∧
      runMove sFullCol 0 = sFullCol) ∧
    getLowestEmptyCell sFullCol.board 7 = none := by
  refine ⟨?_, ?_, ?_⟩
  · exact (C3_reject_unchanged sTerm 0).1 (by decide)
  · exact (C3_reject_unchanged sFullCol 0).2.1 (by decide) (by decide)
  · exact (C3_reject_unchanged sFullCol 7).2.2 (by decide) (by decide)

/-- C4: every successful applyMove places the mover's mark at the row
getLowestEmptyCell chose, that row is empty with every row below it in the
column occupied, and along every sequence of applyMove calls from the fresh
board a non-empty cell never has an empty cell beneath it in its column. -/
theorem C4_gravity :
    (∀ (s : GameState) (col : Nat) (s2 : GameState),
      makeMove s col = Except.ok s2 →
      ∃ row, getLowestEmptyCell s.board col = some row ∧
        s2.board = setCell s.board row col (some s.currentPlayer) ∧
        isEmptyAt s.board row col = true ∧
        ∀ r2, row < r2 → r2 < 3 → isEmptyAt s.board r2 col = false) ∧
    (∀ (cols : List Nat) (r c r2 : Nat), r < 3 → c < 3 →
      isEmptyAt (playMoves startState cols).board r c = false →
      r < r2 → r2 < 3 →
      isEmptyAt (playMoves startState cols).board r2 c = false) := by
  constructor
  · intro s col s2 h
    obtain ⟨hst, row, hrow, hboard, hrest⟩ := makeMove_ok_cases h
    obtain ⟨hemp, hlt, hbelow⟩ := glec_some hrow
    exact ⟨row, hrow, hboard, hemp, hbelow⟩
  · intro cols r c r2 hr hc hful hlt hr2
    have hw : Wf startState.board := by decide
    have hg : gravityStepInv startState.board := by decide
    have h := playMoves_good cols startState hw hg
    exact gravity_no_empty_below h.2 r c r2 hr hc hful hlt hr2

/-- C4 witness: the concrete session sVert dropping into column 1, and the
concrete two-move sequence from the fresh board. -/
theorem C4_gravity_witness :
    (∃ row, getLowestEmptyCell sVert.board 1 = some row ∧
      (runMove sVert 1).board = setCell sVert.board row 1 (some sVert.currentPlayer) ∧
      isEmptyAt sVert.board row 1 = true ∧
      ∀ r2, row < r2 → r2 < 3 → isEmptyAt sVert.board r2 1 = false) ∧
    isEmptyAt (playMoves startState [1, 1]).board 2 1 = false := by
  constructor
  · exact C4_gravity.1 sVert 1 (runMove sVert 1) rfl
  · exact C4_gravity.2 [1, 1] 1 1 2 (by decide) (by decide) (by decide)
      (by decide) (by decide)

/-- C5 (amended): a successful applyMove that leaves the game in progress
hands the turn to the mover's opponent; a successful move that ends the game
(win or draw) leaves currentPlayer unchanged at the mover; a rejected call
leaves the whole session, currentPlayer included, unchanged. -/
theorem C5_alternation :
    (∀ (s : GameState) (col : Nat) (s2 : GameState),
      makeMove s col = Except.ok s2 →
      (s2.gameStatus = GameStatus.playing →
        s2.currentPlayer = nextPlayer s.currentPlayer) ∧
      (s2.gameStatus ≠ GameStatus.playing → s2.currentPlayer = s.currentPlayer)) ∧
    (∀ (s : GameState) (col : Nat) (e : MoveError),
      makeMove s col = Except.error e → runMove s col = s) := by
  constructor
  · intro s col s2 h
    obtain ⟨hst, row, hrow, hboard, hmv, hout⟩ := makeMove_ok_cases h
    rcases hout with ⟨line, hcw, hgs, hwin, hwl, hcp⟩ |
      ⟨hcw, h9, hgs, hwin, hwl, hcp⟩ | ⟨hcw, h9, hgs, hcp, hwin, hwl⟩
    · constructor
      · intro hp
        rw [hgs] at hp
        exact absurd hp (by decide)
      · intro _
        exact hcp
    · constructor
      · intro hp
        rw [hgs] at hp
        exact absurd hp (by decide)
      · intro _
        exact hcp
    · constructor
      · intro _
        exact hcp
      · intro hp
        exact absurd hgs hp
  · intro s col e h
    unfold runMove
    rw [h]

/-- C5 counterexample to the claim as stated: from sVert, dropping X into
column 1 is a successful, game-ending move, and currentPlayer afterwards is
still X, the mover, not the opponent O. -/
theorem C5_counterexample :
    makeMove sVert 1 = Except.ok (runMove sVert 1) ∧
    (runMove sVert 1).gameStatus = GameStatus.won ∧
    (runMove sVert 1).currentPlayer = Player.X ∧
    nextPlayer sVert.currentPlayer = Player.O ∧
    Player.X ≠ Player.O := by
  refine ⟨rfl, rfl, rfl, rfl, by decide⟩

/-- C5 witness: the amended statement at a concrete in-progress move (fresh
board, column 0) and at a concrete rejected move (full column of sFullCol). -/
theorem C5_alternation_witness :
    ((runMove startState 0).gameStatus = GameStatus.playing →
      (runMove startState 0).currentPlayer = nextPlayer startState.currentPlayer) ∧
    runMove sFullCol 0 = sFullCol := by
  constructor
  · exact ((C5_alternation.1 startState 0 (runMove startState 0)) rfl).1
  · exact C5_alternation.2 sFullCol 0 MoveError.columnUnavailable rfl

/-- C6: a session whose status is Won or Draw is absorbing: every further
applyMove call fails with the game-already-over error, and any sequence of
full engine turns (player move plus scheduled AI response) leaves the whole
session - board, status, winningLine and all - exactly as it was. -/
theorem C6_terminal_absorbing (s : GameState) (col : Nat)
    (ins : List (Nat × Bool × Nat))
    (h : s.gameStatus = GameStatus.won ∨ s.gameStatus = GameStatus.draw) :
    makeMove s col = Except.error MoveError.gameAlreadyOver ∧ playTurns s ins = s := by
  have hne : s.gameStatus ≠ GameStatus.playing := by
    rcases h with h | h <;> simp [h]
  constructor
  · unfold makeMove
    rw [if_pos hne]
  · induction ins with
    | nil => rfl
    | cons i rest ih =>
      have h1 : fullTurn s i = s := by
        unfold fullTurn
        have hm : makeMove s i.1 = Except.error MoveError.gameAlreadyOver := by
          unfold makeMove
          rw [if_pos hne]
        rw [hm]
      simp only [playTurns, List.foldl] at ih ⊢
      rw [h1]
      exact ih

/-- C6 witness: the concrete finished session sTerm rejects a move and is
untouched by a two-turn sequence. -/
theorem C6_terminal_absorbing_witness :
    makeMove sTerm 0 = Except.error MoveError.gameAlreadyOver ∧
    playTurns sTerm [(0, false, 0), (2, true, 1)] = sTerm :=
  C6_terminal_absorbing sTerm 0 [(0, false, 0), (2, true, 1)] (Or.inl rfl)


/-- A session with two distinct winning runs available through one drop: X
completes both the top row and column 2 by dropping into column 2. -/
def sDouble : GameState :=
  { board := [[some Player.X, some Player.X, none],
              [some Player.O, some Player.O, some Player.X],
              [some Player.O, some Player.O, some Player.X]],
    currentPlayer := Player.X,
    gameStatus := GameStatus.playing,
    winner := none,
    winningLine := none,
    moves := 8 }

/-- C2 (amended): a successful applyMove that creates a run of winLength
equal marks through the just-placed cell along a row, a column or a diagonal
ends the game as Won for the mover (currentPlayer unchanged), and
winningLine is set to a maximal line through the placed cell whose cells all
hold one mark - the line of the first axis that fires in the fixed check
order, which covers the created run whenever the move creates only one. -/
theorem C2_win_detection (s : GameState) (col : Nat) (s2 : GameState)
    (row r0 c0 : Nat) (dd : Dir) (m : Player)
    (hw : Wf s.board)
    (hok : makeMove s col = Except.ok s2)
    (hrow : getLowestEmptyCell s.board col = some row)
    (hrun : isRunOfB s2.board (runCellsN r0 c0 dd) m = true)
    (hmem : (row, col) ∈ runCellsN r0 c0 dd) :
    s2.gameStatus = GameStatus.won ∧ s2.winner = some s.currentPlayer ∧
    s2.currentPlayer = s.currentPlayer ∧
    ∃ L m2, s2.winningLine = some L ∧ L ∈ allLines ∧ (row, col) ∈ L ∧
      ∀ p ∈ L, cellAt s2.board p.1 p.2 = some (some m2) := by
  obtain ⟨hst, row2, hrow2, hboard, hmv, hout⟩ := makeMove_ok_cases hok
  rw [hrow] at hrow2
  injection hrow2 with hr
  subst hr
  have hsome : (checkWin s2.board row col).isSome = true :=
    checkWin_complete hrun hmem
  rcases hout with ⟨line, hcw, hgs, hwin, hwl, hcp⟩ |
    ⟨hcw, h9, hgs, hwin, hwl, hcp⟩ | ⟨hcw, h9, hgs, hcp, hwin, hwl⟩
  · refine ⟨hgs, hwin, hcp, ?_⟩
    have hw2 : Wf s2.board := by
      rw [hboard]
      exact Wf_setCell _ _ _ hw
    have hcw2 : checkWin s2.board row col = some line := by
      rw [hboard]
      exact hcw
    obtain ⟨m2, hcell, hLmem, hpt, hall⟩ := checkWin_sound hw2 hcw2
    exact ⟨line, m2, hwl, hLmem, hpt, hall⟩
  · rw [hboard] at hsome
    rw [hcw] at hsome
    exact absurd hsome (by simp)
  · rw [hboard] at hsome
    rw [hcw] at hsome
    exact absurd hsome (by simp)

/-- C2 counterexample to the claim as stated: dropping X into column 2 of
sDouble creates two runs through the placed cell (0, 2) - the top row and
column 2 - but winningLine reports only the top row, which does not cover
the cell (1, 2) of the created vertical run. -/
theorem C2_counterexample :
    makeMove sDouble 2 = Except.ok (runMove sDouble 2) ∧
    (runMove sDouble 2).gameStatus = GameStatus.won ∧
    (runMove sDouble 2).winningLine = some [(0, 0), (0, 1), (0, 2)] ∧
    isRunOfB (runMove sDouble 2).board (runCellsN 0 2 Dir.v) Player.X = true ∧
    ((0 : Nat), (2 : Nat)) ∈ runCellsN 0 2 Dir.v ∧
    ((1 : Nat), (2 : Nat)) ∈ runCellsN 0 2 Dir.v ∧
    ¬ ((1 : Nat), (2 : Nat)) ∈ ([((0 : Nat), (0 : Nat)), (0, 1), (0, 2)] : List (Nat × Nat)) := by
  refine ⟨rfl, rfl, rfl, rfl, by decide, by decide, by decide⟩

/-- C2 witness: dropping X into column 1 of sVert completes the vertical run
through the placed cell (0, 1) and the session reports exactly that win. -/
theorem C2_win_detection_witness :
    (runMove sVert 1).gameStatus = GameStatus.won ∧
    (runMove sVert 1).winner = some sVert.currentPlayer ∧
    (runMove sVert 1).currentPlayer = sVert.currentPlayer ∧
    ∃ L m2, (runMove sVert 1).winningLine = some L ∧ L ∈ allLines ∧
      ((0 : Nat), (1 : Nat)) ∈ L ∧
      ∀ p ∈ L, cellAt (runMove sVert 1).board p.1 p.2 = some (some m2) :=
  C2_win_detection sVert 1 (runMove sVert 1) 0 0 1 Dir.v Player.X
    (by decide) rfl (by decide) (by decide) (by decide)

/-- The winningLine validity invariant: whenever the line is set the game is
won and the line is a maximal same-mark line of the current board. -/
def lineOK (s : GameState) : Prop :=
  ∀ L, s.winningLine = some L →
    s.gameStatus = GameStatus.won ∧
    ∃ m, L ∈ allLines ∧ ∀ p ∈ L, cellAt s.board p.1 p.2 = some (some m)

/-- One applyMove call preserves board shape and the winningLine
invariant. -/
theorem runMove_lineOK (s : GameState) (col : Nat)
    (hw : Wf s.board) (hl : lineOK s) :
    Wf (runMove s col).board ∧ lineOK (runMove s col) := by
  unfold runMove
  cases hm : makeMove s col with
  | error e => exact ⟨hw, hl⟩
  | ok s2 =>
    obtain ⟨hst, row, hrow, hboard, hmv, hout⟩ := makeMove_ok_cases hm
    have hw2 : Wf s2.board := by
      rw [hboard]
      exact Wf_setCell _ _ _ hw
    refine ⟨hw2, ?_⟩
    rcases hout with ⟨line, hcw, hgs, hwin, hwl, hcp⟩ |
      ⟨hcw, h9, hgs, hwin, hwl, hcp⟩ | ⟨hcw, h9, hgs, hcp, hwin, hwl⟩
    · intro L hL
      rw [hwl] at hL
      injection hL with hL
      refine ⟨hgs, ?_⟩
      rw [hL] at hcw
      have hcw2 : checkWin s2.board row col = some L := by
        rw [hboard]
        exact hcw
      obtain ⟨m2, hcell, hLmem, hpt, hall⟩ := checkWin_sound hw2 hcw2
      exact ⟨m2, hLmem, hall⟩
    · intro L hL
      rw [hwl] at hL
      exact absurd hL (by simp)
    · intro L hL
      rw [hwl] at hL
      have hwon := (hl L hL).1
      rw [hst] at hwon
      exact absurd hwon (by decide)

/-- The scheduled AI step preserves board shape and the winningLine
invariant whenever the committed session it updates is still in progress
(the only situation in which makeMove schedules it). -/
theorem makeAIMove_lineOK (s0 sc : GameState) (gate : Bool) (ridx : Nat)
    (hw : Wf sc.board) (hl : lineOK sc) (hsc : sc.gameStatus = GameStatus.playing) :
    Wf (makeAIMove s0 sc gate ridx).board ∧ lineOK (makeAIMove s0 sc gate ridx) := by
  unfold makeAIMove
  by_cases hst : s0.gameStatus ≠ GameStatus.playing
  · rw [if_pos hst]
    exact ⟨hw, hl⟩
  · rw [if_neg hst]
    cases hsel : selectAIMove s0.board sc.board gate ridx with
    | none => exact ⟨hw, hl⟩
    | some bestMove =>
      dsimp only
      cases hrow : getLowestEmptyCell s0.board bestMove with
      | none => exact ⟨hw, hl⟩
      | some row =>
        dsimp only
        cases hcw : checkWin (setCell sc.board row bestMove (some Player.O)) row bestMove with
        | some line =>
          dsimp only
          constructor
          · exact Wf_setCell _ _ _ hw
          · intro L hL
            dsimp only at hL
            injection hL with hL
            rw [hL] at hcw
            refine ⟨rfl, ?_⟩
            obtain ⟨m2, hcell, hLmem, hpt, hall⟩ :=
              checkWin_sound (Wf_setCell _ _ _ hw) hcw
            exact ⟨m2, hLmem, hall⟩
        | none =>
          dsimp only
          by_cases h9 : s0.moves + 2 = 9
          · rw [if_pos h9]
            constructor
            · exact Wf_setCell _ _ _ hw
            · intro L hL
              exact absurd hL (by simp)
          · rw [if_neg h9]
            constructor
            · exact Wf_setCell _ _ _ hw
            · intro L hL
              dsimp only at hL
              have hwon := (hl L hL).1
              rw [hsc] at hwon
              exact absurd hwon (by decide)

/-- One full turn (player move plus scheduled AI response) preserves board
shape and the winningLine invariant. -/
theorem fullTurn_lineOK (s : GameState) (i : Nat × Bool × Nat)
    (hw : Wf s.board) (hl : lineOK s) :
    Wf (fullTurn s i).board ∧ lineOK (fullTurn s i) := by
  unfold fullTurn
  cases hm : makeMove s i.1 with
  | error e => exact ⟨hw, hl⟩
  | ok s2 =>
    have h2 : Wf s2.board ∧ lineOK s2 := by
      have hrun := runMove_lineOK s i.1 hw hl
      unfold runMove at hrun
      rw [hm] at hrun
      exact hrun
    dsimp only
    by_cases hcond : s2.gameStatus = GameStatus.playing ∧ s2.currentPlayer = Player.O
    · rw [if_pos hcond]
      exact makeAIMove_lineOK s s2 i.2.1 i.2.2 h2.1 h2.2 hcond.1
    · rw [if_neg hcond]
      exact h2

/-- Any sequence of full turns preserves board shape and the winningLine
invariant. -/
theorem playTurns_lineOK (ins : List (Nat × Bool × Nat)) (s : GameState)
    (hw : Wf s.board) (hl : lineOK s) :
    Wf (playTurns s ins).board ∧ lineOK (playTurns s ins) := by
  induction ins generalizing s with
  | nil => exact ⟨hw, hl⟩
  | cons i rest ih =>
    simp only [playTurns, List.foldl]
    have h := fullTurn_lineOK s i hw hl
    exact ih (fullTurn s i) h.1 h.2

/-- C7: in every session reachable from the fresh game by full engine turns,
a set winningLine consists of exactly three cells forming one of the eight
maximal lines (collinear and contiguous along a row, a column or one of the
two diagonals) and all of its cells hold one and the same mark. -/
theorem C7_winningLine_valid (ins : List (Nat × Bool × Nat)) (L : List (Nat × Nat))
    (h : (playTurns startState ins).winningLine = some L) :
    L.length = 3 ∧ ∃ m, L ∈ allLines ∧
      ∀ p ∈ L, cellAt (playTurns startState ins).board p.1 p.2 = some (some m) := by
  have hstart : lineOK startState := by
    intro L0 hL0
    exact absurd hL0 (by simp [startState])
  have hw : Wf startState.board := by decide
  have hres := (playTurns_lineOK ins startState hw hstart).2 L h
  obtain ⟨hgs, m, hmem, hall⟩ := hres
  refine ⟨?_, m, hmem, hall⟩
  have hmem2 := hmem
  simp only [allLines, List.mem_cons, List.not_mem_nil, or_false] at hmem2
  rcases hmem2 with rfl | rfl | rfl | rfl | rfl | rfl | rfl | rfl <;> rfl

/-- C7 witness: a concrete three-turn game in which X stacks column 1 and
wins; its reported winningLine is the column-1 line. -/
theorem C7_winningLine_valid_witness :
    ([((0 : Nat), (1 : Nat)), (1, 1), (2, 1)] : List (Nat × Nat)).length = 3 ∧
    ∃ m, ([((0 : Nat), (1 : Nat)), (1, 1), (2, 1)] : List (Nat × Nat)) ∈ allLines ∧
      ∀ p ∈ ([((0 : Nat), (1 : Nat)), (1, 1), (2, 1)] : List (Nat × Nat)),
        cellAt (playTurns startState [(1, false, 0), (1, false, 0), (1, false, 0)]).board
          p.1 p.2 = some (some m) :=
  C7_winningLine_valid [(1, false, 0), (1, false, 0), (1, false, 0)]
    [(0, 1), (1, 1), (2, 1)] rfl


/-- The stale board of the C1 scenario: the state before the player's move;
column 2 holds two O marks, so an O drop there wins. -/
def stSel : Board :=
  [[none, none, none],
   [none, none, some Player.O],
   [some Player.X, some Player.X, some Player.O]]

/-- The current board of the C1 scenario: stSel after the player dropped X
into column 0, exactly the pair of boards makeAIMove sees at its call
site. -/
def cuSel : Board :=
  [[none, none, none],
   [some Player.X, none, some Player.O],
   [some Player.X, some Player.X, some Player.O]]

/-- C1 (amended): when the skill-gated randomness does not fire, the
opponent-move selection returns the first column whose simulated O drop wins
- and hence a winning column - provided additionally that this column is not
the first available column, or no column passes the block simulation (the
block loop of the source runs whenever bestMove still equals
availableMoves[0] and can override a winning choice of that very column). -/
theorem C1_win_now (st cu : Board) (ridx : Nat) (cw : Nat)
    (hfind : (availCols st).find? (simWinsO st cu) = some cw)
    (hside : cw ≠ (availCols st).headD 0 ∨
      (availCols st).find? (simWinsX st cu) = none) :
    selectAIMove st cu false ridx = some cw ∧ simWinsO st cu cw = true := by
  have hmem := List.mem_of_find?_eq_some hfind
  have hpred : simWinsO st cu cw = true := List.find?_some hfind
  have hne : (availCols st).isEmpty = false := by
    cases hav : availCols st with
    | nil => rw [hav] at hmem; exact absurd hmem (by simp)
    | cons a rest => rfl
  refine ⟨?_, hpred⟩
  unfold selectAIMove
  simp only [hne, hfind, Bool.false_eq_true, if_false, false_and, ite_false]
  rcases hside with hs | hs
  · rw [if_neg hs]
  · by_cases he : cw = (availCols st).headD 0
    · rw [if_pos he, hs]
    · rw [if_neg he]

/-- C1 counterexample to the claim as stated: in the session with board
cuSel (the opponent to move), dropping O into the non-full column 2 wins
immediately, yet with the random draw that fires the gate and picks index 0
the selection returns column 0, whose O drop does not win - the randomness
overrides the win-now choice. -/
theorem C1_counterexample :
    (getLowestEmptyCell cuSel 2).isSome = true ∧
    simWinsO cuSel cuSel 2 = true ∧
    selectAIMove stSel cuSel true 0 = some 0 ∧
    simWinsO cuSel cuSel 0 = false ∧
    simWinsO stSel cuSel 0 = false := by
  refine ⟨rfl, rfl, rfl, rfl, rfl⟩

/-- C1 witness: in the same scenario with the gate not firing, the selection
does return the winning column 2. -/
theorem C1_win_now_witness :
    selectAIMove stSel cuSel false 5 = some 2 ∧ simWinsO stSel cuSel 2 = true :=
  C1_win_now stSel cuSel 5 2 (by decide) (Or.inl (by decide))

/-- C8 failing input, evaluated: from the fresh game, the player drops into
column 0 and the AI answers (gate not firing).  The AI recomputes the drop
row from the stale pre-move board, writes its O over the player's X, and
counts the stale moves plus two: the session then records moves = 2 while
the board holds a single mark, refuting moveCount = number of occupied
cells. -/
theorem C8_moveCount_mismatch :
    (fullTurn startState (0, false, 0)).moves = 2 ∧
    countMarks (fullTurn startState (0, false, 0)).board = 1 ∧
    (fullTurn startState (0, false, 0)).gameStatus = GameStatus.playing := by
  refine ⟨rfl, rfl, rfl⟩

/-- The pre-move session of the C9 scenario: column 0 holds X over O with
one empty cell on top. -/
def sPre : GameState :=
  { board := [[none, none, none],
              [some Player.X, none, none],
              [some Player.O, none, none]],
    currentPlayer := Player.X,
    gameStatus := GameStatus.playing,
    winner := none,
    winningLine := none,
    moves := 2 }

/-- C9 failing input, evaluated: the player fills column 0; the session
passed to the opponent selection is in progress with the opponent to move
and column 1 still open, yet the selection - whose available-column scan
runs on the stale pre-move board - returns column 0, which has no empty cell
at call time. -/
theorem C9_full_column_selected :
    (runMove sPre 0).gameStatus = GameStatus.playing ∧
    (runMove sPre 0).currentPlayer = Player.O ∧
    (getLowestEmptyCell (runMove sPre 0).board 1).isSome = true ∧
    selectAIMove sPre.board (runMove sPre 0).board false 0 = some 0 ∧
    getLowestEmptyCell (runMove sPre 0).board 0 = none := by
  refine ⟨rfl, rfl, rfl, rfl, rfl⟩

end GravityGame

namespace Connect4

open GravityGame (Player Cell Board cellAt isEmptyAt cellAt_def)

/-- On a 6 by 7 board satisfying the one-step gravity condition, an empty
cell anywhere in a column forces the top cell of that column to be empty. -/
theorem emptyUp67 {b : Board} (hg : gravityStepInv67 b) :
    ∀ r c : Nat, r < 6 → c < 7 → isEmptyAt b r c = true → isEmptyAt b 0 c = true := by
  intro r
  induction r with
  | zero =>
    intro c _ _ he
    exact he
  | succ n ih =>
    intro c hr hc he
    have hn : isEmptyAt b n c = true := hg n (by omega) c hc he
    exact ih c (by omega) hc hn

/-- C10: on every well-formed 6 by 7 board satisfying the gravity invariant,
the top-row-only draw test of the source agrees exactly with the
whole-board-full condition of the spec. -/
theorem C10_draw_refines (b : Board) (hw : Wf67 b) (hg : gravityStepInv67 b) :
    checkDraw b = true ↔ fullBoardSpec b = true := by
  obtain ⟨hlen, hrows⟩ := hw
  have hlt0 : 0 < b.length := by omega
  have h0 : b[0]? = some b[0] := List.getElem?_eq_getElem hlt0
  have hgetD : b.getD 0 [] = b[0] := by
    simp [List.getD_eq_getElem?_getD, h0]
  have hlen0 : (b[0]).length = 7 := hrows _ (List.getElem_mem hlt0)
  constructor
  · intro hcd
    unfold checkDraw at hcd
    rw [hgetD] at hcd
    unfold fullBoardSpec
    rw [List.all_eq_true]
    intro r hrmem
    rw [List.all_eq_true]
    intro c hcmem
    simp only [List.mem_range] at hrmem hcmem
    rw [Bool.not_eq_eq_eq_not, Bool.not_true]
    by_contra hx
    have he : isEmptyAt b r c = true := by
      revert hx
      cases isEmptyAt b r c <;> simp
    have h0c : isEmptyAt b 0 c = true := emptyUp67 hg r c hrmem hcmem he
    have hcell : cellAt b 0 c = some none := by
      have := h0c
      unfold GravityGame.isEmptyAt at this
      exact eq_of_beq this
    rw [cellAt_def, h0] at hcell
    simp only [Option.some_bind] at hcell
    have hmemc : (none : Cell) ∈ b[0] := by
      obtain ⟨hlt, heq⟩ := List.getElem?_eq_some_iff.mp hcell
      exact heq ▸ List.getElem_mem hlt
    have hcontra := List.all_eq_true.mp hcd (none : Cell) hmemc
    simp at hcontra
  · intro hfull
    unfold checkDraw
    rw [hgetD, List.all_eq_true]
    intro cell hcellmem
    obtain ⟨c, hc, hceq⟩ := List.getElem_of_mem hcellmem
    have hc7 : c < 7 := by rw [hlen0] at hc; exact hc
    have h1 := List.all_eq_true.mp hfull 0 (List.mem_range.mpr (by omega))
    have h2 := List.all_eq_true.mp h1 c (List.mem_range.mpr hc7)
    have hread : cellAt b 0 c = some cell := by
      rw [cellAt_def, h0]
      simp only [Option.some_bind]
      rw [List.getElem?_eq_getElem hc, hceq]
    have h3 : isEmptyAt b 0 c = false := by
      revert h2
      cases isEmptyAt b 0 c <;> simp
    unfold GravityGame.isEmptyAt at h3
    rw [hread] at h3
    simp only [beq_eq_false_iff_ne, ne_eq, Option.some.injEq] at h3
    simp only [Bool.not_eq_eq_eq_not, Bool.not_true, beq_eq_false_iff_ne, ne_eq]
    exact h3

/-- A completely occupied 6 by 7 board. -/
def fullB : Board := List.replicate 6 (List.replicate 7 (some Player.X))

/-- C10 witness: the refinement equivalence applied to the concrete full
board, whose shape and gravity hypotheses are checked by evaluation. -/
theorem C10_draw_refines_witness :
    checkDraw fullB = true ↔ fullBoardSpec fullB = true :=
  C10_draw_refines fullB (by decide) (by decide)

end Connect4
